import Mathlib

/-!
# Verification model of the BespokenEncoder server encoder

A shallow embedding of `src/lib/serverEncoder.ts`.  JavaScript strings are
modelled as `List Char`; every external collaborator (the `tmp` library, the
HTTP client, `ffmpeg` via `child_process.execFile`, `fs`, and the S3 SDK) is
modelled by an oracle record `World` holding the outcome each external call
would report.  Each function of the source becomes a pure function from the
oracle to its callback result together with a trace of the side effects it
performed, in order.
-/

namespace Encoder

/-- JavaScript strings are modelled as lists of characters. -/
abbrev Str := List Char

/-- Errors carry their message string. -/
abbrev Err := Str

/-- Shorthand turning a Lean string literal into the model string type. -/
def lit (s : String) : Str := s.toList

/-! ## JavaScript string primitives used by the source -/

/-- JS `String.prototype.lastIndexOf` for a single character: the index of the
last occurrence, or `-1` when the character does not occur. -/
def jsLastIndexOf (s : Str) (c : Char) : Int :=
  match s with
  | [] => -1
  | x :: xs =>
    let r := jsLastIndexOf xs c
    if r = -1 then (if x = c then 0 else -1) else r + 1

/-- JS `String.prototype.substr(start)` with the length argument omitted:
a negative start counts from the end (clamped at 0), and the substring runs
to the end of the string. -/
def jsSubstrFrom (s : Str) (start : Int) : Str :=
  let st : Int := if start < 0 then max ((s.length : Int) + start) 0 else start
  s.drop st.toNat

/-! ## A regular-expression matcher with character-class predicates

JavaScript's `RegExp.prototype.test` on the anchored pattern used by
`isWebUrl` is full-string matching.  We model the regex by an AST with
predicate character classes and decide membership with Brzozowski
derivatives, using smart constructors so that derivative terms stay small. -/

/-- Regular expressions over `Char` with predicate character classes. -/
inductive RE : Type where
  | emp : RE
  | eps : RE
  | pred : (Char → Bool) → RE
  | cat : RE → RE → RE
  | alt : RE → RE → RE
  | star : RE → RE

/-- Does the regex accept the empty string? -/
def RE.nullable : RE → Bool
  | .emp => false
  | .eps => true
  | .pred _ => false
  | .cat a b => a.nullable && b.nullable
  | .alt a b => a.nullable || b.nullable
  | .star _ => true

/-- Is this regex syntactically `emp`? -/
def RE.isEmp : RE → Bool
  | .emp => true
  | _ => false

/-- Is this regex syntactically `eps`? -/
def RE.isEps : RE → Bool
  | .eps => true
  | _ => false

/-- Smart alternation: drops `emp` alternatives. -/
def RE.mkAlt (a b : RE) : RE :=
  if a.isEmp then b else if b.isEmp then a else .alt a b

/-- Smart concatenation: propagates `emp` and elides `eps`. -/
def RE.mkCat (a b : RE) : RE :=
  if a.isEmp || b.isEmp then .emp
  else if a.isEps then b
  else if b.isEps then a
  else .cat a b

/-- Brzozowski derivative with respect to one character. -/
def RE.deriv : RE → Char → RE
  | .emp, _ => .emp
  | .eps, _ => .emp
  | .pred p, c => if p c then .eps else .emp
  | .cat a b, c =>
    if a.nullable then RE.mkAlt (RE.mkCat (a.deriv c) b) (b.deriv c)
    else RE.mkCat (a.deriv c) b
  | .alt a b, c => RE.mkAlt (a.deriv c) (b.deriv c)
  | .star a, c => RE.mkCat (a.deriv c) (.star a)

/-- Derivative-based acceptance: full-string matching. -/
def RE.accepts (r : RE) : Str → Bool
  | [] => r.nullable
  | c :: s => (r.deriv c).accepts s

/-- A literal single character, as the class of characters equal to it. -/
def chr (c : Char) : RE := .pred (fun x => decide (x = c))

/-- A literal string of characters. -/
def litRE : Str → RE
  | [] => .eps
  | c :: cs => .cat (chr c) (litRE cs)

/-- `r?` — zero or one occurrence. -/
def optRE (r : RE) : RE := .alt .eps r

/-- `r+` — one or more occurrences. -/
def plusRE (r : RE) : RE := .cat r (.star r)

/-- JS `\w`: ASCII letters, digits and underscore. -/
def wordChar (c : Char) : Bool := c.isAlpha || c.isDigit || c == '_'

/-- The class `[\w-]` used for host labels. -/
def wordDash (c : Char) : Bool := wordChar c || c == '-'

/-- JS `\d`. -/
def digitChar (c : Char) : Bool := c.isDigit

/-- JS `.` without the dotAll flag: any character except a line terminator. -/
def anyChar (c : Char) : Bool :=
  !(c == '\n' || c == '\r' || c == Char.ofNat 0x2028 || c == Char.ofNat 0x2029)

/-- The scheme group `(http[s]?|ftp)`. -/
def schemeRE : RE :=
  .alt (.cat (litRE (lit "http")) (optRE (chr 's'))) (litRE (lit "ftp"))

/-- `\d{1,5}`: one to five digits. -/
def digits15 : RE :=
  .cat (.pred digitChar)
    (.cat (optRE (.pred digitChar))
      (.cat (optRE (.pred digitChar))
        (.cat (optRE (.pred digitChar)) (optRE (.pred digitChar)))))

/-- The source regex
`^((http[s]?|ftp):\/{2})([\w-]+\.)+(\w+)(:\d{1,5})?\/?(\w*\/?)*(\.\w*)?(\??.*)$`
transcribed subterm by subterm. -/
def webUrlRE : RE :=
  .cat (.cat schemeRE (litRE (lit "://")))
    (.cat (plusRE (.cat (plusRE (.pred wordDash)) (chr '.')))
      (.cat (plusRE (.pred wordChar))
        (.cat (optRE (.cat (chr ':') digits15))
          (.cat (optRE (chr '/'))
            (.cat (.star (.cat (.star (.pred wordChar)) (optRE (chr '/'))))
              (.cat (optRE (.cat (chr '.') (.star (.pred wordChar))))
                (.cat (optRE (chr '?')) (.star (.pred anyChar)))))))))

/-! ## The functions of `serverEncoder.ts` -/

/-- `isWebUrl`: a falsy (empty) url is rejected, otherwise the regex decides. -/
def isWebUrl (url : Str) : Bool :=
  if url = [] then false else webUrlRE.accepts url

/-- `getExtension`: JS `url.substr(url.lastIndexOf("."))` on a truthy url,
with the fallback used only when the computed extension is empty. -/
def getExtension (url : Str) (fallback : Str) : Str :=
  let extension : Str := if url ≠ [] then jsSubstrFrom url (jsLastIndexOf url '.') else []
  if extension.length = 0 then fallback else extension

/-- JS `String.prototype.indexOf` for a single character. -/
def jsIndexOf (s : Str) (c : Char) : Int :=
  match s.findIdx? (fun x => x == c) with
  | some i => (i : Int)
  | none => -1

/-- JS `String.prototype.substr(start, length)`: a negative start counts from
the end, a non-positive length yields the empty string. -/
def jsSubstrLen (s : Str) (start len : Int) : Str :=
  let st : Int := if start < 0 then max ((s.length : Int) + start) 0 else start
  ((s.drop st.toNat).take (max len 0).toNat)

/-- `stripQueryAndFragments` (present in the source but never called). -/
def stripQueryAndFragments (url : Str) : Str :=
  if url ≠ [] then jsSubstrLen url 0 (jsIndexOf url '?') else url

/-- `urlForKey`: pure string construction from bucket and key. -/
def urlForKey (bucket key : Str) : Str :=
  lit "https://s3.amazonaws.com/" ++ bucket ++ lit "/" ++ key

/-! ## The effect model -/

/-- The options record passed to `tmp.file` / `tmp.tmpName`.  The source's
`postfix` option is the field `suffix` here; `keep` prevents automatic
deletion of the temp file. -/
structure TmpOptions where
  suffix : Str
  keep : Bool := false
  deriving DecidableEq

/-- One externally visible side effect, in the order the source issues the
corresponding calls. -/
inductive Event : Type where
  /-- `tmp.file(options, ...)`: allocates and creates a temp file on disk. -/
  | tmpFileCreate : TmpOptions → Str → Event
  /-- `tmp.tmpName(options, ...)`: allocates a fresh name, creates no file. -/
  | tmpNameAlloc : TmpOptions → Str → Event
  /-- `request.get(url)`: network I/O is issued. -/
  | netRequest : Str → Event
  /-- `response.pipe(file)` completed: the response body was written. -/
  | streamToFile : Str → Event
  /-- `cprocess.execFile("ffmpeg", args, ...)` with its output path and the
  reported outcome; the output file is (possibly partially) created. -/
  | ffmpegRun : List Str → Str → Option Err → Event
  /-- `fs.unlink(path, ...)` with the outcome the callback reported. -/
  | unlinkCall : Str → Option Err → Event
  /-- `fs.readFile(path, ...)`. -/
  | readFileCall : Str → Event
  /-- `aws.config.update({accessKeyId, secretAccessKey})`. -/
  | awsConfigUpdate : Option Str → Option Str → Event
  /-- `s3.putObject({Bucket, Key, Body, ACL}, ...)`. -/
  | putObjectCall : Str → Str → Option Str → Str → Event
  deriving DecidableEq

/-- Paths of files the trace creates on disk (temp files and the ffmpeg
output, which exists at least partially even when ffmpeg fails). -/
def createdFiles : List Event → List Str
  | [] => []
  | Event.tmpFileCreate _ p :: es => p :: createdFiles es
  | Event.ffmpegRun _ out _ :: es => out :: createdFiles es
  | _ :: es => createdFiles es

/-- Paths of files the trace successfully deleted. -/
def deletedFiles : List Event → List Str
  | [] => []
  | Event.unlinkCall p none :: es => p :: deletedFiles es
  | _ :: es => deletedFiles es

/-- Files created by the trace and never successfully deleted. -/
def remainingFiles (t : List Event) : List Str :=
  (createdFiles t).filter (fun p => !(deletedFiles t).contains p)

/-- A node-style callback result: an error and a value, each possibly null.
Deliberately a pair, not a sum, so that the either/or claims are facts to
prove rather than facts baked into the type. -/
structure CbRes where
  err : Option Err
  val : Option Str
  deriving DecidableEq

/-- The oracle for every external collaborator: what each external call
would report if the pipeline reaches it. -/
structure World where
  /-- The path `tmp.file` allocates for the downloaded source. -/
  tmpFilePath : Str
  /-- `request.get`: either an `error` event or a response with this final
  status code (redirects already followed by the client). -/
  netResult : Except Err Nat
  /-- An exception thrown while piping the response body, if any. -/
  streamErr : Option Err
  /-- `tmp.tmpName`: the allocated output name, or an error. -/
  tmpNameResult : Except Err Str
  /-- The `execFile` outcome for the ffmpeg run. -/
  ffmpegErr : Option Err
  /-- `fs.readFile` on the transcoded file: the data, or an error. -/
  readFileResult : Except Err Str
  /-- The `s3.putObject` outcome. -/
  putObjectErr : Option Err
  /-- The `fs.unlink` outcome at each path. -/
  unlinkResult : Str → Option Err
  /-- `path.normalize` from the node standard library. -/
  normalize : Str → Str

/-- `Params` of the source: the encode request. -/
structure Params where
  sourceUrl : Str
  targetBucket : Str
  targetKey : Str
  accessKeyId : Option Str := none
  accessSecret : Option Str := none

/-- `networkGet`: validates with `isWebUrl` before any network I/O; an
unsupported URI is rejected without issuing the request. -/
def networkGet (w : World) (fileUrl : Str) : Except Err Nat × List Event :=
  if isWebUrl fileUrl then (w.netResult, [Event.netRequest fileUrl])
  else (Except.error (lit "The url " ++ fileUrl ++ lit " is not a supported URI."), [])

/-- `saveTempFile`: allocates the temp file (with the extension-derived
suffix and `keep: true`) first, then performs the guarded download into it.
Note the temp file is created before `networkGet` runs the URL validation. -/
def saveTempFile (w : World) (fileUrl : Str) : CbRes × List Event :=
  let options : TmpOptions := { suffix := getExtension fileUrl (lit ".tmp"), keep := true }
  let inputPath : Str := w.tmpFilePath
  let ev0 : List Event := [Event.tmpFileCreate options inputPath]
  let net := networkGet w fileUrl
  match net.1 with
  | Except.error e => (⟨some e, none⟩, ev0 ++ net.2)
  | Except.ok statusCode =>
    if statusCode = 200 then
      match w.streamErr with
      | none => (⟨none, some inputPath⟩, ev0 ++ net.2 ++ [Event.streamToFile inputPath])
      | some e => (⟨some e, none⟩, ev0 ++ net.2)
    else
      (⟨some (lit "Could not retrieve file from " ++ fileUrl), none⟩, ev0 ++ net.2)

/-- `convertFile`: allocates a `.mp3` output name, runs ffmpeg with the fixed
argument profile, and on subprocess failure unlinks the partial output and
replaces the error by the generic message before invoking the callback. -/
def convertFile (w : World) (inputFile : Str) : CbRes × List Event :=
  let normalizedPath : Str := w.normalize inputFile
  let options : TmpOptions := { suffix := lit ".mp3" }
  match w.tmpNameResult with
  | Except.error e => (⟨some e, none⟩, [])
  | Except.ok outputPath =>
    let args : List Str :=
      [lit "-i", normalizedPath, lit "-codec:a", lit "libmp3lame", lit "-b:a", lit "48k",
       lit "-ar", lit "16000", lit "-af", lit "volume=3", outputPath]
    match w.ffmpegErr with
    | some e =>
      (⟨some (lit "Unable to encode the file to mp3."), none⟩,
       [Event.tmpNameAlloc options outputPath,
        Event.ffmpegRun args outputPath (some e),
        Event.unlinkCall outputPath (w.unlinkResult outputPath)])
    | none =>
      (⟨none, some outputPath⟩,
       [Event.tmpNameAlloc options outputPath, Event.ffmpegRun args outputPath none])

/-- `downloadAndEncode`: download, then convert; the downloaded file is
unlinked (best effort) inside the convert callback, before the result is
passed on. -/
def downloadAndEncode (w : World) (sourceUrl : Str) : CbRes × List Event :=
  let save := saveTempFile w sourceUrl
  match save.1.err with
  | some e =>
    (⟨some (lit "Unable to download and save file at path " ++ sourceUrl ++
        lit ". Error: " ++ e), none⟩, save.2)
  | none =>
    -- saveTempFile passes a non-null path whenever its error is null.
    let fileUri : Str := save.1.val.getD []
    let conv := convertFile w fileUri
    (⟨conv.1.err, conv.1.val⟩,
     save.2 ++ conv.2 ++ [Event.unlinkCall fileUri (w.unlinkResult fileUri)])

/-- `sendOffToBucket`: reads the file (the read error is never inspected;
a failed read leaves the body undefined), then puts the object with ACL
`public-read` and reports either the putObject error or the constructed URL. -/
def sendOffToBucket (w : World) (fileUri bucket itemKey : Str) : CbRes × List Event :=
  let data : Option Str :=
    match w.readFileResult with
    | Except.ok d => some d
    | Except.error _ => none
  let evs : List Event :=
    [Event.readFileCall fileUri, Event.putObjectCall bucket itemKey data (lit "public-read")]
  match w.putObjectErr with
  | some e => (⟨some e, none⟩, evs)
  | none => (⟨none, some (urlForKey bucket itemKey)⟩, evs)

/-- `encode`: the full pipeline.  On download/convert success it updates the
AWS config with the request credentials, uploads, and unlinks the mp3 file
inside the upload callback before the final callback fires. -/
def encode (w : World) (params : Params) : CbRes × List Event :=
  let dl := downloadAndEncode w params.sourceUrl
  match dl.1.err with
  | some e => (⟨some e, none⟩, dl.2)
  | none =>
    -- downloadAndEncode passes a non-null path whenever its error is null.
    let mp3file : Str := dl.1.val.getD []
    let send := sendOffToBucket w mp3file params.targetBucket params.targetKey
    (⟨send.1.err, send.1.val⟩,
     dl.2 ++ [Event.awsConfigUpdate params.accessKeyId params.accessSecret] ++ send.2 ++
       [Event.unlinkCall mp3file (w.unlinkResult mp3file)])

/-- A concrete all-success oracle, used to witness the theorems on a run
where every external call succeeds. -/
def w0 : World where
  tmpFilePath := lit "/tmp/tmp-1.m4a"
  netResult := Except.ok 200
  streamErr := none
  tmpNameResult := Except.ok (lit "/tmp/tmp-2.mp3")
  ffmpegErr := none
  readFileResult := Except.ok (lit "ID3AUDIO")
  putObjectErr := none
  unlinkResult := fun _ => none
  normalize := fun s => s

/-- `w0` with the network reporting a connection error. -/
def wNetFail : World := { w0 with netResult := Except.error (lit "ECONNREFUSED") }

/-- `w0` with ffmpeg failing. -/
def wFfmpegFail : World := { w0 with ffmpegErr := some (lit "exit code 1") }

/-- `w0` with the read of the transcoded file failing. -/
def wReadFail : World := { w0 with readFileResult := Except.error (lit "ENOENT") }

/-- A concrete valid request against the shortest host the regex accepts. -/
def p0 : Params where
  sourceUrl := lit "http://a.b/c.m4a"
  targetBucket := lit "bucket"
  targetKey := lit "key.mp3"

end Encoder

namespace Encoder

/-! ## Semantics of the regex matcher and its soundness -/

/-- Declarative matching semantics for `RE`. -/
inductive Matches : RE → Str → Prop where
  | eps : Matches .eps []
  | pred {p : Char → Bool} {c : Char} : p c = true → Matches (.pred p) [c]
  | cat {a b : RE} {s t : Str} :
      Matches a s → Matches b t → Matches (.cat a b) (s ++ t)
  | altL {a b : RE} {s : Str} : Matches a s → Matches (.alt a b) s
  | altR {a b : RE} {s : Str} : Matches b s → Matches (.alt a b) s
  | starNil {a : RE} : Matches (.star a) []
  | starCons {a : RE} {s t : Str} :
      Matches a s → Matches (.star a) t → Matches (.star a) (s ++ t)

theorem Matches.emp_elim {s : Str} (h : Matches RE.emp s) : False := by
  nomatch h

theorem Matches.eps_inv {s : Str} (h : Matches RE.eps s) : s = [] := by
  cases h
  rfl

theorem Matches.pred_inv {p : Char → Bool} {s : Str} (h : Matches (RE.pred p) s) :
    ∃ c, s = [c] ∧ p c = true := by
  cases h with
  | pred hp => exact ⟨_, rfl, hp⟩

theorem Matches.cat_inv {a b : RE} {s : Str} (h : Matches (RE.cat a b) s) :
    ∃ u v, s = u ++ v ∧ Matches a u ∧ Matches b v := by
  cases h with
  | cat h1 h2 => exact ⟨_, _, rfl, h1, h2⟩

theorem Matches.alt_inv {a b : RE} {s : Str} (h : Matches (RE.alt a b) s) :
    Matches a s ∨ Matches b s := by
  cases h with
  | altL h1 => exact Or.inl h1
  | altR h1 => exact Or.inr h1

theorem isEmp_eq {r : RE} (h : r.isEmp = true) : r = RE.emp := by
  cases r <;> simp [RE.isEmp] at h ⊢

theorem isEps_eq {r : RE} (h : r.isEps = true) : r = RE.eps := by
  cases r <;> simp [RE.isEps] at h ⊢

theorem mkAlt_sound {a b : RE} {s : Str} (h : Matches (RE.mkAlt a b) s) :
    Matches (RE.alt a b) s := by
  unfold RE.mkAlt at h
  split at h
  · exact Matches.altR h
  · split at h
    · exact Matches.altL h
    · exact h

theorem mkCat_sound {a b : RE} {s : Str} (h : Matches (RE.mkCat a b) s) :
    Matches (RE.cat a b) s := by
  unfold RE.mkCat at h
  split at h
  · exact (h.emp_elim).elim
  · split at h
    · next ha =>
      rw [isEps_eq ha]
      have := Matches.cat Matches.eps h
      simpa using this
    · split at h
      · next hb =>
        rw [isEps_eq hb]
        have := Matches.cat h Matches.eps
        simpa using this
      · exact h

theorem nullable_sound : ∀ (r : RE), r.nullable = true → Matches r [] := by
  intro r
  induction r with
  | emp => simp [RE.nullable]
  | eps => exact fun _ => Matches.eps
  | pred p => simp [RE.nullable]
  | cat a b iha ihb =>
    intro h
    rw [RE.nullable, Bool.and_eq_true] at h
    have := Matches.cat (iha h.1) (ihb h.2)
    simpa using this
  | alt a b iha ihb =>
    intro h
    rw [RE.nullable, Bool.or_eq_true] at h
    cases h with
    | inl h1 => exact Matches.altL (iha h1)
    | inr h1 => exact Matches.altR (ihb h1)
  | star a _ => exact fun _ => Matches.starNil

theorem deriv_sound : ∀ (r : RE) (c : Char) (s : Str),
    Matches (r.deriv c) s → Matches r (c :: s) := by
  intro r
  induction r with
  | emp => intro c s h; rw [RE.deriv] at h; exact (h.emp_elim).elim
  | eps => intro c s h; rw [RE.deriv] at h; exact (h.emp_elim).elim
  | pred p =>
    intro c s h
    rw [RE.deriv] at h
    split at h
    · next hpc => rw [h.eps_inv]; exact Matches.pred hpc
    · exact (h.emp_elim).elim
  | cat a b iha ihb =>
    intro c s h
    rw [RE.deriv] at h
    split at h
    · next hn =>
      rcases (mkAlt_sound h).alt_inv with h1 | h1
      · obtain ⟨u, v, rfl, hu, hv⟩ := (mkCat_sound h1).cat_inv
        exact Matches.cat (iha c u hu) hv
      · have hb := ihb c s h1
        exact Matches.cat (nullable_sound a hn) hb
    · obtain ⟨u, v, rfl, hu, hv⟩ := (mkCat_sound h).cat_inv
      exact Matches.cat (iha c u hu) hv
  | alt a b iha ihb =>
    intro c s h
    rw [RE.deriv] at h
    rcases (mkAlt_sound h).alt_inv with h1 | h1
    · exact Matches.altL (iha c s h1)
    · exact Matches.altR (ihb c s h1)
  | star a iha =>
    intro c s h
    rw [RE.deriv] at h
    obtain ⟨u, v, rfl, hu, hv⟩ := (mkCat_sound h).cat_inv
    exact Matches.starCons (iha c u hu) hv

theorem accepts_sound : ∀ (s : Str) (r : RE), r.accepts s = true → Matches r s := by
  intro s
  induction s with
  | nil => intro r h; exact nullable_sound r h
  | cons c cs ih => intro r h; exact deriv_sound r c cs (ih _ h)

/-! ## The language of the web-URL regex on dot-free hosts -/

theorem litRE_inv : ∀ (l : Str) {s : Str}, Matches (litRE l) s → s = l := by
  intro l
  induction l with
  | nil => intro s h; exact h.eps_inv
  | cons c cs ih =>
    intro s h
    obtain ⟨u, v, rfl, hu, hv⟩ := h.cat_inv
    obtain ⟨c0, rfl, hc⟩ := hu.pred_inv
    have hcc : c0 = c := of_decide_eq_true hc
    rw [hcc, ih hv]
    rfl

theorem star_pred_chars_aux {r : RE} {s : Str} (h : Matches r s) :
    ∀ (p : Char → Bool), r = RE.star (RE.pred p) → ∀ c ∈ s, p c = true := by
  induction h with
  | eps => exact fun p hp => nomatch hp
  | pred _ => exact fun p hp => nomatch hp
  | cat _ _ _ _ => exact fun p hp => nomatch hp
  | altL _ _ => exact fun p hp => nomatch hp
  | altR _ _ => exact fun p hp => nomatch hp
  | starNil => intro p _ c hc; exact absurd hc (List.not_mem_nil c)
  | starCons h1 _ _ ih2 =>
    intro p hp c hc
    injection hp with ha
    subst ha
    obtain ⟨c0, heq, hc0⟩ := h1.pred_inv
    subst heq
    rcases List.mem_append.mp hc with hX | hX
    · have hcc : c = c0 := List.mem_singleton.mp hX
      subst hcc
      exact hc0
    · exact ih2 p rfl c hX

theorem star_pred_chars {p : Char → Bool} {s : Str}
    (h : Matches (RE.star (RE.pred p)) s) : ∀ c ∈ s, p c = true :=
  star_pred_chars_aux h p rfl

theorem plus_pred_chars {p : Char → Bool} {s : Str}
    (h : Matches (plusRE (RE.pred p)) s) : s ≠ [] ∧ ∀ c ∈ s, p c = true := by
  obtain ⟨u, v, rfl, hu, hv⟩ := h.cat_inv
  obtain ⟨c0, rfl, hc0⟩ := hu.pred_inv
  refine ⟨by simp, ?_⟩
  intro c hc
  rcases List.mem_append.mp hc with hX | hX
  · have hcc : c = c0 := List.mem_singleton.mp hX
    subst hcc
    exact hc0
  · exact star_pred_chars hv c hX

/-- The first `[\w-]+\.` host-label group matches exactly a nonempty run of
word/dash characters followed by a literal dot. -/
theorem host_group_shape {s : Str}
    (h : Matches (RE.cat (plusRE (RE.pred wordDash)) (chr '.')) s) :
    ∃ y, s = y ++ ['.'] ∧ y ≠ [] ∧ ∀ c ∈ y, wordDash c = true := by
  obtain ⟨u, v, rfl, hu, hv⟩ := h.cat_inv
  obtain ⟨c0, rfl, hc0⟩ := hv.pred_inv
  have hcc : c0 = '.' := of_decide_eq_true hc0
  subst hcc
  have hp := plus_pred_chars hu
  exact ⟨u, rfl, hp.1, hp.2⟩

/-- The scheme-plus-separator part of the regex matches exactly one of the
three strings `http://`, `https://`, `ftp://`. -/
theorem scheme_shape {s : Str}
    (h : Matches (RE.cat schemeRE (litRE (lit "://"))) s) :
    s = lit "http://" ∨ s = lit "https://" ∨ s = lit "ftp://" := by
  obtain ⟨u, v, rfl, hu, hv⟩ := h.cat_inv
  rw [litRE_inv _ hv]
  rcases hu.alt_inv with h1 | h1
  · obtain ⟨u1, u2, rfl, h11, h12⟩ := h1.cat_inv
    rw [litRE_inv _ h11]
    rcases h12.alt_inv with he | hcs
    · rw [he.eps_inv]
      left
      rfl
    · obtain ⟨c0, rfl, hc⟩ := hcs.pred_inv
      have hcc : c0 = 's' := of_decide_eq_true hc
      subst hcc
      right
      left
      rfl
  · rw [litRE_inv _ h1]
    right
    right
    rfl

/-- No string of the form `label ++ "." ++ anything` equals `h ++ t` when
`h` is all word/dash characters and `t` is empty or starts with a character
that is neither word/dash nor a dot. -/
theorem no_dot_after_label : ∀ (y h t u : Str),
    (∀ c ∈ y, wordDash c = true) → (∀ c ∈ h, wordDash c = true) →
    (t = [] ∨ ∃ c t', t = c :: t' ∧ wordDash c = false ∧ c ≠ '.') →
    y ++ '.' :: u ≠ h ++ t := by
  intro y
  induction y with
  | nil =>
    intro h t u _ hh ht heq
    cases h with
    | cons b h' =>
      injection heq with h1 _
      have hb := hh b (List.mem_cons_self b h')
      rw [← h1] at hb
      exact absurd hb (by decide)
    | nil =>
      rcases ht with rfl | ⟨c, t', rfl, _, hcd⟩
      · simp at heq
      · injection heq with h1 _
        exact hcd h1.symm
  | cons a y' ih =>
    intro h t u hy hh ht heq
    cases h with
    | nil =>
      rcases ht with rfl | ⟨c, t', rfl, hc, _⟩
      · simp at heq
      · injection heq with h1 _
        have ha := hy a (List.mem_cons_self a y')
        rw [h1, hc] at ha
        exact absurd ha (by decide)
    | cons b h' =>
      injection heq with h1 h2
      exact ih h' t u (fun c hc => hy c (List.mem_cons_of_mem a hc))
        (fun c hc => hh c (List.mem_cons_of_mem b hc)) ht h2

/-- The web-URL regex rejects every `http://` URL whose host is a single
dot-free word/dash label, whatever follows the label. -/
theorem webUrl_no_match (h t : Str)
    (hh : ∀ c ∈ h, wordDash c = true)
    (ht : t = [] ∨ ∃ c t', t = c :: t' ∧ wordDash c = false ∧ c ≠ '.') :
    ¬ Matches webUrlRE ((lit "http://" ++ h) ++ t) := by
  intro hm
  obtain ⟨u, v, hs, hu, hv⟩ := hm.cat_inv
  have e7 : lit "http://" = ['h', 't', 't', 'p', ':', '/', '/'] := rfl
  rcases scheme_shape hu with rfl | rfl | rfl
  · -- the scheme consumed exactly "http://"
    rw [e7] at hs
    simp only [List.cons_append, List.nil_append] at hs
    injection hs with _ hs
    injection hs with _ hs
    injection hs with _ hs
    injection hs with _ hs
    injection hs with _ hs
    injection hs with _ hs
    injection hs with _ hs
    rw [← hs] at hv
    -- peel the first host-label group out of the remainder
    obtain ⟨v1, v2, hv12, hv1, _⟩ := hv.cat_inv
    obtain ⟨x1, x2, rfl, hx1, _⟩ := hv1.cat_inv
    obtain ⟨y, rfl, hyne, hy⟩ := host_group_shape hx1
    rw [List.append_assoc, List.append_assoc] at hv12
    simp only [List.singleton_append, List.cons_append] at hv12
    exact no_dot_after_label y h t (x2 ++ v2) hy hh ht hv12.symm
  · -- "https://" cannot be a prefix of "http://..."
    have e8 : lit "https://" = ['h', 't', 't', 'p', 's', ':', '/', '/'] := rfl
    rw [e7, e8] at hs
    simp only [List.cons_append, List.nil_append] at hs
    injection hs with _ hs
    injection hs with _ hs
    injection hs with _ hs
    injection hs with _ hs
    injection hs with h5 _
    exact absurd h5 (by decide)
  · -- "ftp://" cannot be a prefix of "http://..."
    have e9 : lit "ftp://" = ['f', 't', 'p', ':', '/', '/'] := rfl
    rw [e7, e9] at hs
    simp only [List.cons_append, List.nil_append] at hs
    injection hs with h1 _
    exact absurd h1 (by decide)

/-! ## Shape lemmas for the pipeline stages -/

/-- `sendOffToBucket` fully characterized: the outcome depends only on the
`putObject` result, and the object body is the read data when the read
succeeded and undefined when it failed. -/
theorem sendOffToBucket_cases (w : World) (f b k : Str) :
    sendOffToBucket w f b k =
      (⟨w.putObjectErr, if w.putObjectErr.isNone then some (urlForKey b k) else none⟩,
       [Event.readFileCall f,
        Event.putObjectCall b k
          (match w.readFileResult with
           | Except.ok d => some d
           | Except.error _ => none) (lit "public-read")]) := by
  cases h : w.putObjectErr <;> simp [sendOffToBucket, h]

/-- `saveTempFile` either fails with a null path or succeeds with the
allocated temp-file path. -/
theorem saveTempFile_shape (w : World) (url : Str) :
    (∃ e, (saveTempFile w url).1 = ⟨some e, none⟩) ∨
    (saveTempFile w url).1 = ⟨none, some w.tmpFilePath⟩ := by
  by_cases hweb : isWebUrl url
  · cases hnet : w.netResult with
    | error e => exact Or.inl ⟨e, by simp [saveTempFile, networkGet, hweb, hnet]⟩
    | ok code =>
      by_cases hc : code = 200
      · cases hstream : w.streamErr with
        | none => exact Or.inr (by simp [saveTempFile, networkGet, hweb, hnet, hc, hstream])
        | some e => exact Or.inl ⟨e, by simp [saveTempFile, networkGet, hweb, hnet, hc, hstream]⟩
      · exact Or.inl ⟨lit "Could not retrieve file from " ++ url,
          by simp [saveTempFile, networkGet, hweb, hnet, hc]⟩
  · exact Or.inl ⟨lit "The url " ++ url ++ lit " is not a supported URI.",
      by simp [saveTempFile, networkGet, hweb]⟩

/-- `convertFile` either fails with a null path or succeeds with the
allocated output path. -/
theorem convertFile_shape (w : World) (input : Str) :
    (∃ e, (convertFile w input).1 = ⟨some e, none⟩) ∨
    (∃ out, w.tmpNameResult = Except.ok out ∧ w.ffmpegErr = none ∧
      (convertFile w input).1 = ⟨none, some out⟩) := by
  cases htn : w.tmpNameResult with
  | error e => exact Or.inl ⟨e, by simp [convertFile, htn]⟩
  | ok out =>
    cases hff : w.ffmpegErr with
    | some e => exact Or.inl ⟨lit "Unable to encode the file to mp3.",
        by simp [convertFile, htn, hff]⟩
    | none => exact Or.inr ⟨out, rfl, rfl, by simp [convertFile, htn, hff]⟩

/-- `downloadAndEncode` either fails with a null path or succeeds with the
transcoded output path. -/
theorem downloadAndEncode_shape (w : World) (url : Str) :
    (∃ e, (downloadAndEncode w url).1 = ⟨some e, none⟩) ∨
    (∃ out, w.tmpNameResult = Except.ok out ∧ w.ffmpegErr = none ∧
      (downloadAndEncode w url).1 = ⟨none, some out⟩) := by
  rcases saveTempFile_shape w url with ⟨e, hsv⟩ | hsv
  · exact Or.inl ⟨lit "Unable to download and save file at path " ++ url ++
        lit ". Error: " ++ e, by simp [downloadAndEncode, hsv]⟩
  · rcases convertFile_shape w w.tmpFilePath with ⟨e, hcv⟩ | ⟨out, h1, h2, hcv⟩
    · exact Or.inl ⟨e, by simp [downloadAndEncode, hsv, hcv]⟩
    · exact Or.inr ⟨out, h1, h2, by simp [downloadAndEncode, hsv, hcv]⟩

/-! ## The claims -/

/-- C1: for every call to `encode`, the callback receives exactly one of a
public URL or an error: the URL is non-null precisely when the error is
null, and null precisely when the error is non-null — never both populated,
never both absent. -/
theorem encode_callback_exclusive (w : World) (p : Params) :
    ((encode w p).1.err).isNone = ((encode w p).1.val).isSome := by
  rcases downloadAndEncode_shape w p.sourceUrl with ⟨e, hdl⟩ | ⟨out, _, _, hdl⟩
  · simp [encode, hdl]
  · have hsend := sendOffToBucket_cases w out p.targetBucket p.targetKey
    cases hpo : w.putObjectErr <;>
      simp [encode, hdl, hsend, hpo]

/-- C2 (code bug in the source): on every validation failure the request is
rejected with an error, but the temp file has already been allocated —
`tmp.file` (with `keep: true`) runs before `networkGet` validates the URL,
so the rejected request still creates exactly one temp file, which is never
deleted. -/
theorem saveTempFile_creates_temp_before_validation (w : World) (url : Str)
    (hweb : isWebUrl url = false) :
    ((saveTempFile w url).1.err).isSome = true ∧
    (saveTempFile w url).2 =
      [Event.tmpFileCreate ⟨getExtension url (lit ".tmp"), true⟩ w.tmpFilePath] ∧
    remainingFiles (saveTempFile w url).2 = [w.tmpFilePath] := by
  refine ⟨?_, ?_, ?_⟩ <;>
    simp [saveTempFile, networkGet, hweb, remainingFiles, createdFiles, deletedFiles]

/-- Witness for C2: a concrete non-web URL is rejected, yet its temp file
was created and remains. -/
theorem saveTempFile_creates_temp_before_validation_witness :
    remainingFiles (saveTempFile w0 (lit "file:///a/b.mp3")).2 = [lit "/tmp/tmp-1.m4a"] :=
  (saveTempFile_creates_temp_before_validation w0 (lit "file:///a/b.mp3") (by decide)).2.2

/-! ## Behaviour of `getExtension` (C3) -/

theorem jsLastIndexOf_not_mem {s : Str} {c : Char} (h : c ∉ s) :
    jsLastIndexOf s c = -1 := by
  induction s with
  | nil => rfl
  | cons x xs ih =>
    have hx : x ≠ c := by
      intro hh
      exact h (hh ▸ List.mem_cons_self x xs)
    have hxs : c ∉ xs := fun hh => h (List.mem_cons_of_mem x hh)
    simp [jsLastIndexOf, ih hxs, hx]

theorem jsLastIndexOf_last (a b : Str) (c : Char) (hb : c ∉ b) :
    jsLastIndexOf (a ++ c :: b) c = (a.length : Int) := by
  induction a with
  | nil => simp [jsLastIndexOf, jsLastIndexOf_not_mem hb]
  | cons x a' ih =>
    have hge : (0 : Int) ≤ (a'.length : Int) := Int.natCast_nonneg _
    have hne : ((a'.length : Int)) ≠ -1 := by omega
    simp [jsLastIndexOf, ih, hne]

theorem jsSubstrFrom_natCast (s : Str) (n : Nat) :
    jsSubstrFrom s (n : Int) = s.drop n := by
  have h : ¬((n : Int) < 0) := by omega
  simp [jsSubstrFrom, h]

/-- Every list containing a character splits at that character's last
occurrence. -/
theorem last_dot_decomp {url : Str} (h : '.' ∈ url) :
    ∃ a b, url = a ++ '.' :: b ∧ '.' ∉ b := by
  induction url with
  | nil => exact absurd h (List.not_mem_nil '.')
  | cons x xs ih =>
    by_cases hxs : '.' ∈ xs
    · obtain ⟨a, b, rfl, hb⟩ := ih hxs
      exact ⟨x :: a, b, rfl, hb⟩
    · rcases List.mem_cons.mp h with hx | hx
      · exact ⟨[], xs, by rw [← hx]; rfl, hxs⟩
      · exact absurd hx hxs

/-- C3 is false on the code: for the valid URL `http://a.b/c` whose path has
no dot, the suffix is `.b/c` (taken from the whole URL, dot included), not
the claimed fallback `.tmp`. -/
theorem getExtension_counterexample :
    isWebUrl (lit "http://a.b/c") = true ∧
    getExtension (lit "http://a.b/c") (lit ".tmp") = lit ".b/c" ∧
    lit ".b/c" ≠ lit ".tmp" ∧
    getExtension (lit "http://localhost") (lit ".tmp") = lit "t" := by
  refine ⟨by decide, by decide, by decide, by decide⟩

/-- C3 amended: the suffix is computed from the whole URL (query included),
as the substring from the last `.` inclusive; the `.tmp` fallback applies
only to the empty URL; a nonempty URL without any `.` yields its final
character (JS `substr(-1)`) as the suffix. -/
theorem getExtension_characterization (url fb : Str) :
    (url = [] → getExtension url fb = fb) ∧
    ('.' ∈ url → ∃ a b, url = a ++ '.' :: b ∧ '.' ∉ b ∧
      getExtension url fb = '.' :: b) ∧
    (url ≠ [] → '.' ∉ url → ∃ c cs, url = cs ++ [c] ∧
      getExtension url fb = [c]) := by
  refine ⟨?_, ?_, ?_⟩
  · intro h
    subst h
    rfl
  · intro hmem
    obtain ⟨a, b, rfl, hb⟩ := last_dot_decomp hmem
    refine ⟨a, b, rfl, hb, ?_⟩
    have h1 : jsLastIndexOf (a ++ '.' :: b) '.' = (a.length : Int) :=
      jsLastIndexOf_last a b '.' hb
    have h2 : jsSubstrFrom (a ++ '.' :: b) (a.length : Int) = '.' :: b := by
      rw [jsSubstrFrom_natCast]
      exact List.drop_left a ('.' :: b)
    simp [getExtension, h1, h2]
  · intro hne hmem
    rcases url.eq_nil_or_concat' with rfl | ⟨cs, c, rfl⟩
    · exact absurd rfl hne
    · refine ⟨c, cs, rfl, ?_⟩
      have h1 : jsLastIndexOf (cs ++ [c]) '.' = -1 := jsLastIndexOf_not_mem hmem
      have h2 : jsSubstrFrom (cs ++ [c]) (-1) = [c] := by
        have hlen : (cs ++ [c]).length = cs.length + 1 := by simp
        have hmax : max (((cs ++ [c]).length : Int) + -1) 0 = (cs.length : Int) := by
          rw [hlen]
          omega
        have : ((cs.length : Int)).toNat = cs.length := Int.toNat_natCast _
        simp [jsSubstrFrom, hmax, this]
      simp [getExtension, h1, h2]

/-- Witness for the amended C3 at a URL with a dot: the suffix is the
substring from the last dot, dot included. -/
theorem getExtension_characterization_witness :
    ∃ a b, lit "a.mp3" = a ++ '.' :: b ∧ '.' ∉ b ∧
      getExtension (lit "a.mp3") (lit ".tmp") = '.' :: b :=
  (getExtension_characterization (lit "a.mp3") (lit ".tmp")).2.1 (by decide)

/-- A helper shared by the witnesses: the shortest valid source URL they use
does pass `isWebUrl`. -/
theorem isWebUrl_ab : isWebUrl (lit "http://a.b/c.m4a") = true := by decide

/-- C4: every successful encode returns exactly the string
`"https://s3.amazonaws.com/" + bucket + "/" + key`, built by `urlForKey` by
pure string construction from bucket and key only. -/
theorem encode_success_url (w : World) (p : Params)
    (h : (encode w p).1.err = none) :
    (encode w p).1.val =
      some (lit "https://s3.amazonaws.com/" ++ p.targetBucket ++ lit "/" ++ p.targetKey) ∧
    (encode w p).1.val = some (urlForKey p.targetBucket p.targetKey) := by
  have hurl : urlForKey p.targetBucket p.targetKey =
      lit "https://s3.amazonaws.com/" ++ p.targetBucket ++ lit "/" ++ p.targetKey := rfl
  rcases downloadAndEncode_shape w p.sourceUrl with ⟨e, hdl⟩ | ⟨out, _, _, hdl⟩
  · exact absurd h (by simp [encode, hdl])
  · have hsend := sendOffToBucket_cases w out p.targetBucket p.targetKey
    cases hpo : w.putObjectErr with
    | some e => exact absurd h (by simp [encode, hdl, hsend, hpo])
    | none =>
      constructor <;> simp [encode, hdl, hsend, hpo, hurl]

/-- Witness for C4: the all-success world returns the constructed URL. -/
theorem encode_success_url_witness :
    (encode w0 p0).1.val =
      some (lit "https://s3.amazonaws.com/" ++ lit "bucket" ++ lit "/" ++ lit "key.mp3") :=
  (encode_success_url w0 p0 (by decide)).1

/-- C5: `convertFile` returns a null output path precisely when it returns a
non-null error, and on subprocess failure it unlinks the partially created
output file before the callback fires (the unlink is the last effect of the
failure trace). -/
theorem convertFile_exclusive_and_cleanup (w : World) (input : Str) :
    (((convertFile w input).1.err).isNone = ((convertFile w input).1.val).isSome) ∧
    (∀ out e, w.tmpNameResult = Except.ok out → w.ffmpegErr = some e →
      (convertFile w input).2 =
        [Event.tmpNameAlloc ⟨lit ".mp3", false⟩ out,
         Event.ffmpegRun
           [lit "-i", w.normalize input, lit "-codec:a", lit "libmp3lame", lit "-b:a",
            lit "48k", lit "-ar", lit "16000", lit "-af", lit "volume=3", out]
           out (some e),
         Event.unlinkCall out (w.unlinkResult out)]) := by
  constructor
  · rcases convertFile_shape w input with ⟨e, hcv⟩ | ⟨out, _, _, hcv⟩ <;> simp [hcv]
  · intro out e htn hff
    simp [convertFile, htn, hff]

/-- Witness for C5: a concrete failing ffmpeg run deletes its output before
reporting the generic error. -/
theorem convertFile_exclusive_and_cleanup_witness :
    (convertFile wFfmpegFail (lit "/a/in.m4a")).2 =
      [Event.tmpNameAlloc ⟨lit ".mp3", false⟩ (lit "/tmp/tmp-2.mp3"),
       Event.ffmpegRun
         [lit "-i", lit "/a/in.m4a", lit "-codec:a", lit "libmp3lame", lit "-b:a",
          lit "48k", lit "-ar", lit "16000", lit "-af", lit "volume=3", lit "/tmp/tmp-2.mp3"]
         (lit "/tmp/tmp-2.mp3") (some (lit "exit code 1")),
       Event.unlinkCall (lit "/tmp/tmp-2.mp3") none] :=
  (convertFile_exclusive_and_cleanup wFfmpegFail (lit "/a/in.m4a")).2
    (lit "/tmp/tmp-2.mp3") (lit "exit code 1") rfl rfl

/-- C6: after any complete pipeline run in which the download succeeded (and
deletions themselves succeed, deletion being best-effort), no temporary
files remain; the downloaded file's unlink happens regardless of the
transcode outcome and the mp3's unlink regardless of the publish outcome. -/
theorem encode_cleanup (w : World) (p : Params)
    (hweb : isWebUrl p.sourceUrl = true)
    (hnet : w.netResult = Except.ok 200)
    (hstream : w.streamErr = none)
    (hunlink : ∀ q, w.unlinkResult q = none) :
    remainingFiles (encode w p).2 = [] ∧
    Event.unlinkCall w.tmpFilePath none ∈ (encode w p).2 ∧
    (∀ out, w.tmpNameResult = Except.ok out → w.ffmpegErr = none →
      Event.unlinkCall out none ∈ (encode w p).2) := by
  have hsave : (saveTempFile w p.sourceUrl).1 = ⟨none, some w.tmpFilePath⟩ := by
    simp [saveTempFile, networkGet, hweb, hnet, hstream]
  have hsave2 : (saveTempFile w p.sourceUrl).2 =
      [Event.tmpFileCreate ⟨getExtension p.sourceUrl (lit ".tmp"), true⟩ w.tmpFilePath,
       Event.netRequest p.sourceUrl, Event.streamToFile w.tmpFilePath] := by
    simp [saveTempFile, networkGet, hweb, hnet, hstream]
  cases htn : w.tmpNameResult with
  | error e =>
    refine ⟨?_, ?_, ?_⟩ <;>
      simp [encode, downloadAndEncode, convertFile, hsave, hsave2, htn, hunlink,
        remainingFiles, createdFiles, deletedFiles]
  | ok out =>
    cases hff : w.ffmpegErr with
    | some e =>
      refine ⟨?_, ?_, ?_⟩ <;>
        simp [encode, downloadAndEncode, convertFile, hsave, hsave2, htn, hff, hunlink,
          remainingFiles, createdFiles, deletedFiles]
    | none =>
      have hsend := sendOffToBucket_cases w out p.targetBucket p.targetKey
      cases hpo : w.putObjectErr with
      | some e =>
        refine ⟨?_, ?_, ?_⟩ <;>
          simp [encode, downloadAndEncode, convertFile, hsave, hsave2, htn, hff, hpo,
            hsend, hunlink, remainingFiles, createdFiles, deletedFiles]
      | none =>
        refine ⟨?_, ?_, ?_⟩ <;>
          simp [encode, downloadAndEncode, convertFile, hsave, hsave2, htn, hff, hpo,
            hsend, hunlink, remainingFiles, createdFiles, deletedFiles]

/-- Witness for C6: the all-success pipeline leaves no files behind. -/
theorem encode_cleanup_witness :
    remainingFiles (encode w0 p0).2 = [] :=
  (encode_cleanup w0 p0 isWebUrl_ab rfl rfl (fun _ => rfl)).1

/-- C7: whenever the output name was allocated, `convertFile` runs the
subprocess with the fixed argument profile `-i <normalized input> -codec:a
libmp3lame -b:a 48k -ar 16000 -af volume=3 <output>`, independent of any
caller-supplied configuration. -/
theorem convertFile_fixed_args (w : World) (input : Str) :
    ∀ out, w.tmpNameResult = Except.ok out →
      Event.ffmpegRun
        [lit "-i", w.normalize input, lit "-codec:a", lit "libmp3lame", lit "-b:a",
         lit "48k", lit "-ar", lit "16000", lit "-af", lit "volume=3", out]
        out w.ffmpegErr ∈ (convertFile w input).2 := by
  intro out htn
  cases hff : w.ffmpegErr <;> simp [convertFile, htn, hff]

/-- Witness for C7: the concrete all-success run invokes ffmpeg with exactly
the fixed profile. -/
theorem convertFile_fixed_args_witness :
    Event.ffmpegRun
      [lit "-i", lit "/a/in.m4a", lit "-codec:a", lit "libmp3lame", lit "-b:a",
       lit "48k", lit "-ar", lit "16000", lit "-af", lit "volume=3", lit "/tmp/tmp-2.mp3"]
      (lit "/tmp/tmp-2.mp3") none ∈ (convertFile w0 (lit "/a/in.m4a")).2 :=
  convertFile_fixed_args w0 (lit "/a/in.m4a") (lit "/tmp/tmp-2.mp3") rfl

/-- C8: when reading the local file fails, `sendOffToBucket` ignores the
read error: it still issues `putObject` (with an undefined body), and its
outcome is exactly the outcome it has in an otherwise identical world where
the read succeeds — determined solely by the `putObject` result. -/
theorem sendOffToBucket_ignores_read_error (w : World) (f b k : Str) :
    ∀ e, w.readFileResult = Except.error e →
      (Event.putObjectCall b k none (lit "public-read") ∈ (sendOffToBucket w f b k).2 ∧
       (sendOffToBucket w f b k).1 =
         (sendOffToBucket { w with readFileResult := Except.ok (lit "") } f b k).1) := by
  intro e hread
  cases hpo : w.putObjectErr <;>
    constructor <;>
      simp [sendOffToBucket, hread, hpo]

/-- Witness for C8: with a failed read, the body is undefined and the upload
still succeeds, returning the constructed URL. -/
theorem sendOffToBucket_ignores_read_error_witness :
    Event.putObjectCall (lit "bucket") (lit "key.mp3") none (lit "public-read") ∈
      (sendOffToBucket wReadFail (lit "/tmp/tmp-2.mp3") (lit "bucket") (lit "key.mp3")).2 :=
  (sendOffToBucket_ignores_read_error wReadFail (lit "/tmp/tmp-2.mp3") (lit "bucket")
    (lit "key.mp3") (lit "ENOENT") rfl).1

/-- C9: when validation passed but the download fails (error event or
non-200 status), `downloadAndEncode` reports an error with a null path, the
temp file was created with `keep: true`, no unlink of it ever appears in the
trace, and it remains on disk. -/
theorem downloadAndEncode_leaks_temp_on_download_failure (w : World) (url : Str)
    (hweb : isWebUrl url = true)
    (hfail : (∃ e, w.netResult = Except.error e) ∨
             (∃ n, w.netResult = Except.ok n ∧ n ≠ 200)) :
    ((downloadAndEncode w url).1.err).isSome = true ∧
    (downloadAndEncode w url).1.val = none ∧
    Event.tmpFileCreate ⟨getExtension url (lit ".tmp"), true⟩ w.tmpFilePath ∈
      (downloadAndEncode w url).2 ∧
    (∀ res, Event.unlinkCall w.tmpFilePath res ∉ (downloadAndEncode w url).2) ∧
    w.tmpFilePath ∈ remainingFiles (downloadAndEncode w url).2 := by
  rcases hfail with ⟨e, hnet⟩ | ⟨n, hnet, hn⟩
  · refine ⟨?_, ?_, ?_, ?_, ?_⟩ <;>
      simp [downloadAndEncode, saveTempFile, networkGet, hweb, hnet,
        remainingFiles, createdFiles, deletedFiles]
  · refine ⟨?_, ?_, ?_, ?_, ?_⟩ <;>
      simp [downloadAndEncode, saveTempFile, networkGet, hweb, hnet, hn,
        remainingFiles, createdFiles, deletedFiles]

/-- Witness for C9: a concrete connection failure leaves the downloaded temp
file on disk. -/
theorem downloadAndEncode_leaks_temp_on_download_failure_witness :
    lit "/tmp/tmp-1.m4a" ∈
      remainingFiles (downloadAndEncode wNetFail (lit "http://a.b/c.m4a")).2 :=
  (downloadAndEncode_leaks_temp_on_download_failure wNetFail (lit "http://a.b/c.m4a")
    isWebUrl_ab (Or.inl ⟨lit "ECONNREFUSED", rfl⟩)).2.2.2.2

/-- C10: the URL validation accepts only hosts containing a dot: every
`http://` URL whose host is one dot-free word/dash label (whatever port or
path follows) fails `isWebUrl`, and `networkGet` rejects it as an
unsupported URI without performing network I/O. -/
theorem isWebUrl_rejects_dotfree_host (w : World) (h t : Str)
    (_hne : h ≠ [])
    (hh : ∀ c ∈ h, wordDash c = true)
    (ht : t = [] ∨ ∃ c t', t = c :: t' ∧ wordDash c = false ∧ c ≠ '.') :
    isWebUrl (lit "http://" ++ h ++ t) = false ∧
    networkGet w (lit "http://" ++ h ++ t) =
      (Except.error (lit "The url " ++ (lit "http://" ++ h ++ t) ++
        lit " is not a supported URI."), []) := by
  have hcons : lit "http://" ++ h ++ t ≠ [] := by
    intro hx
    have : ('h' : Char) :: (lit "ttp://" ++ h ++ t) = [] := hx
    exact absurd this (by simp)
  have hfalse : isWebUrl (lit "http://" ++ h ++ t) = false := by
    unfold isWebUrl
    rw [if_neg hcons]
    cases hb : webUrlRE.accepts (lit "http://" ++ h ++ t) with
    | false => rfl
    | true =>
      have hm := accepts_sound _ _ hb
      exact absurd hm (webUrl_no_match h t hh ht)
  refine ⟨hfalse, ?_⟩
  have hfalse' : isWebUrl (lit "http://" ++ (h ++ t)) = false := by
    rw [← List.append_assoc]
    exact hfalse
  simp [networkGet, hfalse, hfalse']

/-- Witness for C10: `http://localhost:8080/a.mp3` is rejected even though it
has an http scheme, a host and a port. -/
theorem isWebUrl_rejects_dotfree_host_witness :
    isWebUrl (lit "http://localhost:8080/a.mp3") = false :=
  (isWebUrl_rejects_dotfree_host w0 (lit "localhost") (lit ":8080/a.mp3")
    (by decide) (by decide)
    (Or.inr ⟨':', lit "8080/a.mp3", by decide, by decide, by decide⟩)).1

end Encoder
